import Mathlib

/-!
Verification development for the timetabling model compiler
(`hard_constrains.py`, `soft_constrains.py`, `lp_minimal.py`,
`lp_minimal_2.py`, `lp_minimal_3.py`, `structures.py`).

The decision space is one boolean per (slot, teacher, course, room)
quadruple.  Constraints emitted by the compiler functions are linear
(in)equalities with unit coefficients over these booleans (plus drop
indicators `u[c]` and auxiliary booleans `z`), so a constraint is
embedded as two atom lists (left and right side), a comparison and an
integer constant.  Gurobi constraint names are strings joined by the
underscore character; they are embedded as lists of tokens, where a
token is a literal word, a decimal number, a number carrying the
possessive marker, or a semester tag.  The Python prefix and substring
tests of the diagnoser are read at token granularity (an underscore in
the pattern is a token boundary); this is exact on the alphabet of
generated names, where no token is a proper prefix of a pattern word,
no literal word is numeric, and ids render as plain decimal numbers.
-/

namespace Timetable

/-- Faculty enum from `structures.py`. -/
inductive Faculty
  | BU | AU | KG | M
deriving DecidableEq, Repr

/-- RoomType enum from `structures.py`. -/
inductive RoomType
  | LECTURE | LAB | COMPUTER | SEMINAR
deriving DecidableEq, Repr, Fintype

/-- Building enum from `structures.py`. -/
inductive Building
  | GSS | M13 | C11 | C13 | M7 | B11 | HK7
deriving DecidableEq, Repr

/-- Teacher record from `structures.py` (fields used by the constraint
compilers). -/
structure Teacher where
  teacher_id : Nat
  faculty : Faculty
  hard_time_constr : List Nat
  soft_time_constr : List Nat
deriving DecidableEq, Repr

/-- Course record from `structures.py` (fields used by the constraint
compilers).  `semester` is the list of semester tags, `facility_constr`
the allowed room types, `teacher_ids` the allowed teachers and
`times_per_week` the rational session count. -/
structure Course where
  course_id : Nat
  faculty : Faculty
  expected_num_students : Nat
  semester : List String
  facility_constr : List RoomType
  teacher_ids : List Nat
  times_per_week : ℚ
deriving DecidableEq, Repr

/-- Room record from `structures.py`. -/
structure Room where
  room_id : Nat
  address : Building
  type : RoomType
  faculty : Faculty
  capacity : Nat
deriving DecidableEq, Repr

/-- Literal words occurring in generated Gurobi constraint names.
Constructor `wX` stands for the lower-case word X of the f-string,
`wLECTURE` and friends for the room type names. -/
inductive Word
  | wRoom | wSlot | wHave | wNo | wMore | wThan | wCourse | wBy
  | wTeacher | wIn | wThem | wHas | wAt | wTime | wFor | wSemester
  | wHard | wMust | wBe | wFulfilled | wNeeds | wExpected | wCapacity
  | wIs | wLe | wThere | wLeast | wAssigned | wTo | wScheduled | wOr
  | wDropped | wNot | wAllowed
  | wLECTURE | wLAB | wCOMPUTER | wSEMINAR
deriving DecidableEq, Repr

/-- One token of an underscore-separated Gurobi constraint name:
a literal word, a decimal number, a number immediately followed by the
possessive marker (as in the room capacity constraint name), or a
semester tag (which contains no underscore). -/
inductive Tok
  | lit (w : Word)
  | num (n : Nat)
  | nums (n : Nat)
  | sem (s : String)
deriving DecidableEq, Repr

/-- A Gurobi constraint name, split at underscores. -/
abbrev Name := List Tok

/-- A model variable: a decision variable `x[s, t, c, r]`, a drop
indicator `unscheduled[c]` from `add_all_courses_scheduled_soft`, or an
auxiliary binary created by a soft term. -/
inductive Atom
  | x (s t c r : Nat)
  | u (c : Nat)
  | z (tag : List Nat)
deriving DecidableEq, Repr

/-- Comparison operator of a linear constraint. -/
inductive Cmp
  | le | eq | ge
deriving DecidableEq, Repr

/-- A linear constraint `sum lhs CMP sum rhs + const` with unit
coefficients, carrying its Gurobi name. -/
structure Constr where
  name : Name
  lhs : List Atom
  cmp : Cmp
  rhs : List Atom
  const : Int
deriving DecidableEq, Repr

/-- Value of a unit-coefficient linear expression under an assignment. -/
def sumA (σ : Atom → Int) (l : List Atom) : Int :=
  (l.map σ).sum

/-- Satisfaction of one constraint by an assignment. -/
def Constr.holds (σ : Atom → Int) : Constr → Prop
  | ⟨_, l, Cmp.le, r, k⟩ => sumA σ l ≤ sumA σ r + k
  | ⟨_, l, Cmp.eq, r, k⟩ => sumA σ l = sumA σ r + k
  | ⟨_, l, Cmp.ge, r, k⟩ => sumA σ l ≥ sumA σ r + k

instance (σ : Atom → Int) : (ct : Constr) → Decidable (Constr.holds σ ct)
  | ⟨_, l, Cmp.le, r, k⟩ => inferInstanceAs (Decidable (sumA σ l ≤ sumA σ r + k))
  | ⟨_, l, Cmp.eq, r, k⟩ => inferInstanceAs (Decidable (sumA σ l = sumA σ r + k))
  | ⟨_, l, Cmp.ge, r, k⟩ => inferInstanceAs (Decidable (sumA σ l ≥ sumA σ r + k))

/-- An assignment is binary when every variable is 0 or 1 (all model
variables are declared with vtype GRB.BINARY). -/
def Binary (σ : Atom → Int) : Prop := ∀ a, σ a = 0 ∨ σ a = 1

/-- Name `room_{r}_slot_{s}_have_no_more_than_1_course_by_1_teacher_in_them`
from `add_single_room_single_course_constr` (`hard_constrains.py`). -/
def roomExclName (r s : Nat) : Name :=
  [.lit .wRoom, .num r, .lit .wSlot, .num s, .lit .wHave, .lit .wNo,
   .lit .wMore, .lit .wThan, .num 1, .lit .wCourse, .lit .wBy, .num 1,
   .lit .wTeacher, .lit .wIn, .lit .wThem]

/-- Name `teacher_{t}_has_1_course_in_1_room_at_time_slot_{s}` from
`add_single_teacher_single_course_constr` (`hard_constrains.py`). -/
def teacherExclName (t s : Nat) : Name :=
  [.lit .wTeacher, .num t, .lit .wHas, .num 1, .lit .wCourse, .lit .wIn,
   .num 1, .lit .wRoom, .lit .wAt, .lit .wTime, .lit .wSlot, .num s]

/-- Name `no_more_than_1_course_at_time_{slot}_for_semester_{sem}` from
`add_no_semester_overlapping_constr` (`hard_constrains.py`). -/
def semOverlapName (slot : Nat) (sem : String) : Name :=
  [.lit .wNo, .lit .wMore, .lit .wThan, .num 1, .lit .wCourse, .lit .wAt,
   .lit .wTime, .num slot, .lit .wFor, .lit .wSemester, .sem sem]

/-- Name `teacher_{t}_hard_time_{slot}_must_be_fulfilled` from
`add_teacher_hard_time_constraints` (`hard_constrains.py`). -/
def teacherHardName (t slot : Nat) : Name :=
  [.lit .wTeacher, .num t, .lit .wHard, .lit .wTime, .num slot,
   .lit .wMust, .lit .wBe, .lit .wFulfilled]

/-- Name `course_{c}_expected_capacity_is_le_than_room_{r}'s_capacity`
from `add_room_capacity_constr` (`hard_constrains.py`); the token after
`room` is the room id fused with the possessive marker. -/
def capacityName (c r : Nat) : Name :=
  [.lit .wCourse, .num c, .lit .wExpected, .lit .wCapacity, .lit .wIs,
   .lit .wLe, .lit .wThan, .lit .wRoom, .nums r, .lit .wCapacity]

/-- Name `course_{c}_needs_{types}_slot_{s}_teacher_{t}_room_{r}` from
`add_room_type_constraints` (`hard_constrains.py`); `tys` is the list of
tokens of the joined, alphabetically sorted allowed type names. -/
def roomTypeName (c : Nat) (tys : List Tok) (s t r : Nat) : Name :=
  [.lit .wCourse, .num c, .lit .wNeeds] ++ tys ++
  [.lit .wSlot, .num s, .lit .wTeacher, .num t, .lit .wRoom, .num r]

/-- Name `there_is_at_least_1_slot_1_room_1_teacher_assigned_to_course_{c}`
from `add_all_courses_scheduled_constraint` (`hard_constrains.py`). -/
def coverageName (c : Nat) : Name :=
  [.lit .wThere, .lit .wIs, .lit .wAt, .lit .wLeast, .num 1, .lit .wSlot,
   .num 1, .lit .wRoom, .num 1, .lit .wTeacher, .lit .wAssigned,
   .lit .wTo, .lit .wCourse, .num c]

/-- Name `course_{c}_scheduled_or_dropped` from
`add_all_courses_scheduled_soft` (`lp_minimal_3.py`). -/
def softCoverageName (c : Nat) : Name :=
  [.lit .wCourse, .num c, .lit .wScheduled, .lit .wOr, .lit .wDropped]

/-- Name `course_{c}_teacher_{t}_not_allowed` from
`add_course_teacher_compatibility_constraint` (`lp_minimal_3.py`). -/
def compatName (c t : Nat) : Name :=
  [.lit .wCourse, .num c, .lit .wTeacher, .num t, .lit .wNot, .lit .wAllowed]

/-- The word token of a room type name (`RoomType.name` in Python). -/
def typeWord : RoomType → Tok
  | .LECTURE => .lit .wLECTURE
  | .LAB => .lit .wLAB
  | .COMPUTER => .lit .wCOMPUTER
  | .SEMINAR => .lit .wSEMINAR

/-- Tokens of `'_'.join(t.name for t in sorted(allowed, key ...))`: the
members of `allowed` in the alphabetical order of their names
(COMPUTER, LAB, LECTURE, SEMINAR). -/
def typeToks (allowed : Finset RoomType) : List Tok :=
  ([RoomType.COMPUTER, RoomType.LAB, RoomType.LECTURE,
    RoomType.SEMINAR].filter (fun ty => decide (ty ∈ allowed))).map typeWord

/-- The set SEMINAR_COMPATIBLE from `add_room_type_constraints`
(`hard_constrains.py` lines 98-103). -/
def SEMINAR_COMPATIBLE : Finset RoomType :=
  {RoomType.SEMINAR, RoomType.LECTURE, RoomType.LAB, RoomType.COMPUTER}

/-- The allowed-type set of a course after the seminar closure
(`hard_constrains.py` lines 110-114): the set of the facility
constraints, enlarged by SEMINAR_COMPATIBLE when SEMINAR is a member. -/
def closureTypes (facility : List RoomType) : Finset RoomType :=
  let allowed := facility.toFinset
  if RoomType.SEMINAR ∈ allowed then allowed ∪ SEMINAR_COMPATIBLE else allowed

/-- The list of decision variables `x[s, t, c, r]` of one course,
enumerated in the loop order `for s ... for t ... for r` used by the
course coverage constraints. -/
def courseVars (slots teachers rooms : List Nat) (c : Nat) : List Atom :=
  slots.flatMap fun s => teachers.flatMap fun t => rooms.map fun r => .x s t c r

/-- The room exclusivity constraint of one (room, slot) pair
(`hard_constrains.py` lines 15-18). -/
def roomExclConstr (teachers courses : List Nat) (r s : Nat) : Constr :=
  ⟨roomExclName r s,
   teachers.flatMap fun t => courses.map fun c => .x s t c r,
   Cmp.le, [], 1⟩

/-- `add_single_room_single_course_constr` (`hard_constrains.py` lines
12-18): at most one active assignment per (room, slot). -/
def add_single_room_single_course_constr
    (slots teachers courses rooms : List Nat) : List Constr :=
  rooms.flatMap fun r => slots.map fun s => roomExclConstr teachers courses r s

/-- The teacher exclusivity constraint of one (teacher, slot) pair
(`hard_constrains.py` lines 25-32). -/
def teacherExclConstr (courses rooms : List Nat) (t slot : Nat) : Constr :=
  ⟨teacherExclName t slot,
   courses.flatMap fun c => rooms.map fun r => .x slot t c r,
   Cmp.le, [], 1⟩

/-- `add_single_teacher_single_course_constr` (`hard_constrains.py`
lines 21-32): at most one active assignment per (teacher, slot). -/
def add_single_teacher_single_course_constr
    (slots teachers courses rooms : List Nat) : List Constr :=
  teachers.flatMap fun t => slots.map fun slot => teacherExclConstr courses rooms t slot

/-- The semester non-overlap constraint of one (semester, slot) pair
(`hard_constrains.py` lines 49-58); the summation runs over the courses
carrying the tag, then teachers, then rooms. -/
def semOverlapConstr (teachers courses rooms : List Nat)
    (course_by_id : Nat → Course) (sem : String) (slot : Nat) : Constr :=
  ⟨semOverlapName slot sem,
   (courses.filter fun c => decide (sem ∈ (course_by_id c).semester)).flatMap
     fun c => teachers.flatMap fun t => rooms.map fun r => .x slot t c r,
   Cmp.le, [], 1⟩

/-- `add_no_semester_overlapping_constr` (`hard_constrains.py` lines
40-58). -/
def add_no_semester_overlapping_constr (semesters : List String)
    (course_by_id : Nat → Course) (slots teachers courses rooms : List Nat) :
    List Constr :=
  semesters.flatMap fun sem => slots.map fun slot =>
    semOverlapConstr teachers courses rooms course_by_id sem slot

/-- `add_teacher_hard_time_constraints` (`hard_constrains.py` lines
62-75): for every slot in a teacher hard_time_constr list, the sum of
that teacher assignments in the slot equals zero. -/
def add_teacher_hard_time_constraints (teachers_id_list : List Nat)
    (dict_teacher_id_obj : Nat → Teacher) (courses_ids rooms_ids : List Nat) :
    List Constr :=
  teachers_id_list.flatMap fun t =>
    (dict_teacher_id_obj t).hard_time_constr.map fun slot =>
      ⟨teacherHardName t slot,
       courses_ids.flatMap fun c => rooms_ids.map fun r => .x slot t c r,
       Cmp.eq, [], 0⟩

/-- The single-variable fixing `x[s, t, c, r] == 0` emitted by
`add_room_capacity_constr` (`hard_constrains.py` lines 90-93). -/
def capacityFix (c r slot t : Nat) : Constr :=
  ⟨capacityName c r, [.x slot t c r], Cmp.eq, [], 0⟩

/-- `add_room_capacity_constr` (`hard_constrains.py` lines 77-93): for
every (course, room) pair with expected_num_students strictly above the
room capacity, every variable of the pair is fixed to zero. -/
def add_room_capacity_constr (courses rooms : List Nat)
    (course_by_id : Nat → Course) (room_by_id : Nat → Room)
    (slots teachers : List Nat) : List Constr :=
  courses.flatMap fun c => rooms.flatMap fun r =>
    if (course_by_id c).expected_num_students > (room_by_id r).capacity then
      slots.flatMap fun slot => teachers.map fun t => capacityFix c r slot t
    else []

/-- The single-variable fixing `x[s, t, c, r] == 0` emitted by
`add_room_type_constraints` (`hard_constrains.py` lines 120-126). -/
def roomTypeFix (course_by_id : Nat → Course) (slot t c r : Nat) : Constr :=
  ⟨roomTypeName c (typeToks (closureTypes (course_by_id c).facility_constr)) slot t r,
   [.x slot t c r], Cmp.eq, [], 0⟩

/-- `add_room_type_constraints` (`hard_constrains.py` lines 95-126):
for every (slot, teacher, course, room) tuple whose room type is not in
the seminar closure of the course allowed types, the variable is fixed
to zero. -/
def add_room_type_constraints (slots teachers courses rooms : List Nat)
    (course_by_id : Nat → Course) (room_by_id : Nat → Room) : List Constr :=
  slots.flatMap fun slot => teachers.flatMap fun t => courses.flatMap fun c =>
    rooms.filterMap fun r =>
      if (room_by_id r).type ∈ closureTypes (course_by_id c).facility_constr
      then none
      else some (roomTypeFix course_by_id slot t c r)

/-- The hard coverage constraint of one course (`hard_constrains.py`
lines 137-146): total active assignments of the course at least one. -/
def coverageConstr (slots teachers rooms : List Nat) (c : Nat) : Constr :=
  ⟨coverageName c, courseVars slots teachers rooms c, Cmp.ge, [], 1⟩

/-- `add_all_courses_scheduled_constraint` (`hard_constrains.py` lines
129-146). -/
def add_all_courses_scheduled_constraint
    (courses_id_list teachers_id_list rooms_id_list slots : List Nat) :
    List Constr :=
  courses_id_list.map fun c =>
    coverageConstr slots teachers_id_list rooms_id_list c

/-- The soft coverage constraint of one course (`lp_minimal_3.py` lines
292-296): active assignments plus the binary drop indicator equal one. -/
def softCoverageConstr (slots teachers rooms : List Nat) (c : Nat) : Constr :=
  ⟨softCoverageName c, courseVars slots teachers rooms c ++ [.u c], Cmp.eq, [], 1⟩

/-- Constraint part of `add_all_courses_scheduled_soft`
(`lp_minimal_3.py` lines 286-297). -/
def add_all_courses_scheduled_soft
    (courses_id_list teachers_id_list rooms_id_list slots : List Nat) :
    List Constr :=
  courses_id_list.map fun c =>
    softCoverageConstr slots teachers_id_list rooms_id_list c

/-- Objective part of `add_all_courses_scheduled_soft`
(`lp_minimal_3.py` line 297): `penalty * quicksum(u[c])`. -/
def dropPenaltyExpr (penalty : Int) (courses_id_list : List Nat)
    (σ : Atom → Int) : Int :=
  penalty * (courses_id_list.map fun c => σ (.u c)).sum

/-- The forbidding constraint of one (course, teacher) pair emitted by
`add_course_teacher_compatibility_constraint` (`lp_minimal_3.py` lines
275-278). -/
def compatForbid (slots rooms : List Nat) (c t : Nat) : Constr :=
  ⟨compatName c t,
   slots.flatMap fun s => rooms.map fun r => .x s t c r,
   Cmp.eq, [], 0⟩

/-- `add_course_teacher_compatibility_constraint` (`lp_minimal_3.py`
lines 249-283): a course with an empty teacher_ids list, or whose
teacher_ids resolve to no listed teacher, gets no constraint; otherwise
every teacher outside the resolved allowed set is forbidden. -/
def add_course_teacher_compatibility_constraint
    (slots teachers_id_list courses_id_list rooms_id_list : List Nat)
    (course_by_id : Nat → Course) : List Constr :=
  courses_id_list.flatMap fun c =>
    let raw_allowed := (course_by_id c).teacher_ids
    let allowed := raw_allowed.filter fun t => decide (t ∈ teachers_id_list)
    if raw_allowed = [] then []
    else if allowed = [] then []
    else teachers_id_list.filterMap fun t =>
      if t ∈ allowed then none
      else some (compatForbid slots rooms_id_list c t)

/-- The hard model of `lp_minimal.py` main (lines 153-159): the seven
hard constraint families, coverage in its hard form. -/
def compileHardModel (slots teachers courses rooms : List Nat)
    (semesters : List String) (teacher_by_id : Nat → Teacher)
    (course_by_id : Nat → Course) (room_by_id : Nat → Room) : List Constr :=
  add_single_room_single_course_constr slots teachers courses rooms ++
  add_single_teacher_single_course_constr slots teachers courses rooms ++
  add_no_semester_overlapping_constr semesters course_by_id slots teachers courses rooms ++
  add_teacher_hard_time_constraints teachers teacher_by_id courses rooms ++
  add_room_capacity_constr courses rooms course_by_id room_by_id slots teachers ++
  add_room_type_constraints slots teachers courses rooms course_by_id room_by_id ++
  add_all_courses_scheduled_constraint courses teachers rooms slots

/-- The constraint set of `lp_minimal_3.py` main (lines 403-418) with
ALLOW_DROPPING_COURSES: six hard families, the course-teacher
compatibility constraints, and the soft coverage constraints. -/
def compileSoftModel (slots teachers courses rooms : List Nat)
    (semesters : List String) (teacher_by_id : Nat → Teacher)
    (course_by_id : Nat → Course) (room_by_id : Nat → Room) : List Constr :=
  add_single_room_single_course_constr slots teachers courses rooms ++
  add_single_teacher_single_course_constr slots teachers courses rooms ++
  add_no_semester_overlapping_constr semesters course_by_id slots teachers courses rooms ++
  add_teacher_hard_time_constraints teachers teacher_by_id courses rooms ++
  add_room_capacity_constr courses rooms course_by_id room_by_id slots teachers ++
  add_room_type_constraints slots teachers courses rooms course_by_id room_by_id ++
  add_course_teacher_compatibility_constraint slots teachers courses rooms course_by_id ++
  add_all_courses_scheduled_soft courses teachers rooms slots

/-- The assignment that schedules nothing and drops every course. -/
def dropAll : Atom → Int
  | .u _ => 1
  | _ => 0

/-- The three AND-linearization constraints `z <= a`, `z <= b`,
`z >= a + b - 1` as emitted (unnamed) by
`add_remote_building_lunch_objcetive` (`soft_constrains.py` lines
184-186) and, with names, by
`add_teacher_back_to_back_building_change_objective` (lines 563-565). -/
def andLink (z a b : Atom) : List Constr :=
  [⟨[], [z], Cmp.le, [a], 0⟩,
   ⟨[], [z], Cmp.le, [b], 0⟩,
   ⟨[], [z], Cmp.ge, [a, b], -1⟩]

/-- Token-level reading of the Python test `name.startswith(p)` where
`p` ends with an underscore: the pattern tokens are an initial segment
of the name and at least one token follows. -/
def tokStarts : List Tok → Name → Bool
  | [], [] => false
  | [], _ :: _ => true
  | _ :: _, [] => false
  | p :: ps, n :: ns => p == n && tokStarts ps ns

/-- Plain token-prefix test (the matched segment may reach the end of
the name). -/
def tokPfx : List Tok → Name → Bool
  | [], _ => true
  | _ :: _, [] => false
  | p :: ps, n :: ns => p == n && tokPfx ps ns

/-- Occurrence of the pattern tokens at any offset of the name; the
occurrence may end at the end of the name. -/
def tokAnywhere (pat : List Tok) : Name → Bool
  | [] => tokPfx pat []
  | n :: ns => tokPfx pat (n :: ns) || tokAnywhere pat ns

/-- Occurrence of the pattern tokens at any offset of the name with at
least one token following the occurrence. -/
def tokAnywhereT (pat : List Tok) : Name → Bool
  | [] => false
  | n :: ns => tokStarts pat (n :: ns) || tokAnywhereT pat ns

/-- Token-level reading of the Python test `"_p" in name` (pattern with
a leading underscore, no trailing one): the pattern occurs at a token
offset of at least one. -/
def tokMid (pat : List Tok) (name : Name) : Bool :=
  match name with
  | [] => false
  | _ :: rest => tokAnywhere pat rest

/-- Token-level reading of the Python test `"_p_" in name` (pattern
wrapped in underscores): the pattern occurs at a token offset of at
least one and a token follows it. -/
def tokMidT (pat : List Tok) (name : Name) : Bool :=
  match name with
  | [] => false
  | _ :: rest => tokAnywhereT pat rest

/-- Python `int(token)`: succeeds exactly on a plain decimal token. -/
def intOf : Tok → Option Nat
  | .num n => some n
  | _ => none

/-- Last token of a nonempty token list (accumulator form). -/
def lastTokAux : Tok → List Tok → Tok
  | t, [] => t
  | _, x :: xs => lastTokAux x xs

/-- Python `name.rsplit("_", 1)[1]`: the last token, defined only when
the name has at least two tokens (otherwise the index raises). -/
def rsplitLast : Name → Option Tok
  | [] => none
  | [_] => none
  | _ :: t₂ :: rest => some (lastTokAux t₂ rest)

/-- Python `name.split("_allowed_", 1)[1].split("_")`: the tokens after
the first occurrence of the token `allowed` that sits at offset at
least one and is followed by a token; `none` when the separator is
absent (the index would raise). -/
def splitAfterAllowed : Name → Option Name
  | [] => none
  | _ :: rest => splitAfterAllowedAux rest
where
  splitAfterAllowedAux : Name → Option Name
    | [] => none
    | x :: xs =>
      if x = .lit .wAllowed ∧ xs ≠ [] then some xs else splitAfterAllowedAux xs

/-- Accumulator state of `get_unschedulable_objects_from_iis`: the
unschedulable course list, the teacher-to-slot dictionary, and the
allowed_types list. -/
structure IISState where
  unschedulable_courses : List Nat
  teacher_slots : Nat → Option Nat
  allowed_types : List Tok

/-- The empty accumulator (lines 37-40 of `lp_minimal.py`). -/
def initIIS : IISState := ⟨[], fun _ => none, []⟩

/-- Pattern `"_has_1_course_in_1_room_at_time_slot_"`. -/
def patTeacherExcl : List Tok :=
  [.lit .wHas, .num 1, .lit .wCourse, .lit .wIn, .num 1, .lit .wRoom,
   .lit .wAt, .lit .wTime, .lit .wSlot]

/-- Pattern `"no_more_than_1_course_at_time_"`. -/
def patSemPrefix : List Tok :=
  [.lit .wNo, .lit .wMore, .lit .wThan, .num 1, .lit .wCourse, .lit .wAt,
   .lit .wTime]

/-- Pattern `"_must_be_fulfilled"`. -/
def patMust : List Tok := [.lit .wMust, .lit .wBe, .lit .wFulfilled]

/-- Pattern `"there_is_at_least_1_slot_1_room_1_teacher_assigned_to_course_"`. -/
def patCoverage : List Tok :=
  [.lit .wThere, .lit .wIs, .lit .wAt, .lit .wLeast, .num 1, .lit .wSlot,
   .num 1, .lit .wRoom, .num 1, .lit .wTeacher, .lit .wAssigned,
   .lit .wTo, .lit .wCourse]

/-- One dispatch step of `get_unschedulable_objects_from_iis` in
`lp_minimal.py` (lines 44-91) on the name of one conflict-set member;
`none` models an uncaught exception of `int` or of the index after
`split("_allowed_", 1)`.  The branch order is that of the source: the
generic `course_` prefix branch precedes the `_needs_` branch. -/
def step1 (st : IISState) (name : Name) : Option IISState :=
  if tokStarts [.lit .wRoom] name then some st
  else if tokStarts [.lit .wTeacher] name && tokMidT patTeacherExcl name then some st
  else if tokStarts patSemPrefix name then some st
  else if tokStarts [.lit .wTeacher] name && tokMid patMust name then
    match (name.get? 1).bind intOf, (name.get? 4).bind intOf with
    | some t, some slot =>
        some { st with teacher_slots := fun t₂ => if t₂ = t then some slot else st.teacher_slots t₂ }
    | _, _ => none
  else if tokStarts [.lit .wCourse] name then
    match (name.get? 1).bind intOf with
    | some c => some { st with unschedulable_courses := st.unschedulable_courses ++ [c] }
    | none => none
  else if tokStarts [.lit .wCourse] name && tokMidT [.lit .wNeeds] name then
    match splitAfterAllowed name with
    | some tys => some { st with allowed_types := tys }
    | none => none
  else if tokStarts patCoverage name then
    match (rsplitLast name).bind intOf with
    | some c => some { st with unschedulable_courses := st.unschedulable_courses ++ [c] }
    | none => none
  else some st

/-- One dispatch step of `get_unschedulable_objects_from_iis` in
`lp_minimal_2.py` (lines 43-71).  Here the room-type branch demands
both `"_needs_"` and `"_allowed_"` in the name, and the generic
`course_` fallback swallows the `int` exception. -/
def step2 (st : IISState) (name : Name) : Option IISState :=
  if tokStarts [.lit .wTeacher] name && tokMid patMust name then
    match (name.get? 1).bind intOf, (name.get? 4).bind intOf with
    | some t, some slot =>
        some { st with teacher_slots := fun t₂ => if t₂ = t then some slot else st.teacher_slots t₂ }
    | _, _ => none
  else if tokStarts patCoverage name then
    match (rsplitLast name).bind intOf with
    | some c => some { st with unschedulable_courses := st.unschedulable_courses ++ [c] }
    | none => none
  else if tokStarts [.lit .wCourse] name && tokMidT [.lit .wNeeds] name
          && tokMidT [.lit .wAllowed] name then
    match splitAfterAllowed name with
    | some tys => some { st with allowed_types := tys }
    | none => none
  else if tokStarts [.lit .wCourse] name then
    match (name.get? 1).bind intOf with
    | some c => some { st with unschedulable_courses := st.unschedulable_courses ++ [c] }
    | none => some st
  else some st

/-- The loop of `get_unschedulable_objects_from_iis` over the names of
the conflict-set constraints. -/
def runIIS (step : IISState → Name → Option IISState) (names : List Name) :
    Option IISState :=
  names.foldlM step initIIS

/-- `get_unschedulable_objects_from_iis` of `lp_minimal.py` (lines
36-92) given the names of the conflict-set constraints: the deduplicated
unschedulable course list, the teacher-to-slot dictionary, and the
allowed_types list; `none` models an uncaught exception.  Python builds
the deduplicated list through `list(set(...))` whose order is
unspecified; here the first occurrences are kept. -/
def get_unschedulable_objects_from_iis_v1 (names : List Name) :
    Option (List Nat × (Nat → Option Nat) × List Tok) :=
  (runIIS step1 names).map fun st =>
    (st.unschedulable_courses.dedup, st.teacher_slots, st.allowed_types)

/-- `get_unschedulable_objects_from_iis` of `lp_minimal_2.py` (lines
36-72). -/
def get_unschedulable_objects_from_iis_v2 (names : List Name) :
    Option (List Nat × (Nat → Option Nat) × List Tok) :=
  (runIIS step2 names).map fun st =>
    (st.unschedulable_courses.dedup, st.teacher_slots, st.allowed_types)

/-- A member of the conflict set, identified by its constraint family
and the entity ids embedded in its generated name. -/
inductive GenName
  | roomExcl (r s : Nat)
  | teacherExcl (t s : Nat)
  | semOverlap (slot : Nat) (sem : String)
  | teacherHard (t slot : Nat)
  | capacity (c r : Nat)
  | roomType (c : Nat) (tys : List RoomType) (s t r : Nat)
  | coverage (c : Nat)
deriving DecidableEq, Repr

/-- The generated Gurobi name of a conflict-set member. -/
def GenName.render : GenName → Name
  | .roomExcl r s => roomExclName r s
  | .teacherExcl t s => teacherExclName t s
  | .semOverlap slot sem => semOverlapName slot sem
  | .teacherHard t slot => teacherHardName t slot
  | .capacity c r => capacityName c r
  | .roomType c tys s t r => roomTypeName c (tys.map typeWord) s t r
  | .coverage c => coverageName c

/-- Net effect of one `lp_minimal.py` dispatch step on a generated
name: the teacher-hard branch updates the dictionary; the capacity and
room-type names fall into the generic `course_` branch and the coverage
name into its own branch, each appending its course id; everything else
is a no-op, and the allowed_types field is never touched. -/
def act1 (st : IISState) : GenName → IISState
  | .teacherHard t slot =>
      { st with teacher_slots := fun t₂ => if t₂ = t then some slot else st.teacher_slots t₂ }
  | .capacity c _ =>
      { st with unschedulable_courses := st.unschedulable_courses ++ [c] }
  | .roomType c _ _ _ _ =>
      { st with unschedulable_courses := st.unschedulable_courses ++ [c] }
  | .coverage c =>
      { st with unschedulable_courses := st.unschedulable_courses ++ [c] }
  | _ => st

/-- The slot of the last teacher-hard-unavailability member for a given
teacher in a conflict set (later members overwrite the dictionary
entry). -/
def lastTeacherHardSlot : List GenName → Nat → Option Nat
  | [], _ => none
  | GenName.teacherHard t₂ slot :: gs, t =>
    match lastTeacherHardSlot gs t with
    | some s => some s
    | none => if t₂ = t then some slot else none
  | _ :: gs, t => lastTeacherHardSlot gs t

/-- Example teacher without time constraints. -/
def exTeacher : Teacher := ⟨0, .BU, [], []⟩

/-- Example course: 10 expected students, lecture room required, once
per week, semester tag S, teacher 0 allowed. -/
def exCourse : Course := ⟨0, .BU, 10, ["S"], [.LECTURE], [0], 1⟩

/-- Example lecture room with capacity 30. -/
def exRoom : Room := ⟨0, .GSS, .LECTURE, .BU, 30⟩

/-- Example lab room with capacity 30. -/
def exRoomLab : Room := ⟨1, .GSS, .LAB, .BU, 30⟩

/-- Example lecture room with capacity 5. -/
def exRoomSmall : Room := ⟨2, .GSS, .LECTURE, .BU, 5⟩

/-- Constant teacher lookup. -/
def exTeacherById : Nat → Teacher := fun _ => exTeacher

/-- Constant course lookup. -/
def exCourseById : Nat → Course := fun _ => exCourse

/-- Constant room lookup. -/
def exRoomById : Nat → Room := fun _ => exRoom

/-- Room lookup mapping id 1 to the lab room and id 2 to the small
room, every other id to the lecture room. -/
def exRoomByIdMixed : Nat → Room := fun r =>
  if r = 1 then exRoomLab else if r = 2 then exRoomSmall else exRoom

/-- The assignment activating only `x[1, 0, 0, 0]`. -/
def exAssignOnce : Atom → Int := fun a => if a = .x 1 0 0 0 then 1 else 0

/-- The assignment activating `x[1, 0, 0, 0]` and `x[2, 0, 0, 0]`. -/
def exAssignTwice : Atom → Int := fun a =>
  if a = .x 1 0 0 0 ∨ a = .x 2 0 0 0 then 1 else 0

/-- The all-ones assignment. -/
def exAllOnes : Atom → Int := fun _ => 1

/-- Conflict set of the room-type scenario: the coverage constraint of
course 5 and the room-type fixing telling that course 5 needs a LECTURE
room. -/
def c3ConflictSet : List GenName :=
  [.coverage 5, .roomType 5 [RoomType.LECTURE] 1 2 3]

/-- Conflict set of scenario B: teacher 7 is hard-unavailable at slot 1
and course 3 cannot be covered. -/
def c9ConflictSet : List GenName :=
  [.teacherHard 7 1, .coverage 3]

theorem sumA_nil (σ : Atom → Int) : sumA σ [] = 0 := rfl

theorem sumA_cons (σ : Atom → Int) (a : Atom) (l : List Atom) :
    sumA σ (a :: l) = σ a + sumA σ l := by
  simp [sumA]

theorem sumA_append (σ : Atom → Int) (l₁ l₂ : List Atom) :
    sumA σ (l₁ ++ l₂) = sumA σ l₁ + sumA σ l₂ := by
  simp [sumA]

theorem sumA_zero (σ : Atom → Int) (l : List Atom)
    (h : ∀ a ∈ l, σ a = 0) : sumA σ l = 0 := by
  induction l with
  | nil => rfl
  | cons a l ih =>
    rw [sumA_cons, h a (List.mem_cons_self a l), ih fun b hb => h b (List.mem_cons_of_mem a hb)]
    ring

theorem binary_nonneg {σ : Atom → Int} (h : Binary σ) (a : Atom) : 0 ≤ σ a := by
  rcases h a with h' | h' <;> simp [h']

theorem sumA_nonneg (σ : Atom → Int) (l : List Atom)
    (h0 : ∀ y ∈ l, 0 ≤ σ y) : 0 ≤ sumA σ l := by
  induction l with
  | nil => simp [sumA_nil]
  | cons x xs ih =>
    rw [sumA_cons]
    have hx := h0 x (List.mem_cons_self x xs)
    have := ih fun y hy => h0 y (List.mem_cons_of_mem x hy)
    omega

theorem single_le_sumA (σ : Atom → Int) (l : List Atom) (a : Atom)
    (ha : a ∈ l) (h0 : ∀ y ∈ l, 0 ≤ σ y) : σ a ≤ sumA σ l := by
  induction l with
  | nil => cases ha
  | cons x xs ih =>
    rw [sumA_cons]
    rcases List.mem_cons.mp ha with rfl | ha'
    · have := sumA_nonneg σ xs fun y hy => h0 y (List.mem_cons_of_mem a hy)
      omega
    · have hx := h0 x (List.mem_cons_self x xs)
      have := ih ha' fun y hy => h0 y (List.mem_cons_of_mem x hy)
      omega

theorem pair_le_sumA (σ : Atom → Int) (l : List Atom) (a b : Atom)
    (ha : a ∈ l) (hb : b ∈ l) (hne : a ≠ b)
    (h0 : ∀ y ∈ l, 0 ≤ σ y) : σ a + σ b ≤ sumA σ l := by
  induction l with
  | nil => cases ha
  | cons x xs ih =>
    rw [sumA_cons]
    rcases List.mem_cons.mp ha with rfl | ha'
    · rcases List.mem_cons.mp hb with rfl | hb'
      · exact absurd rfl hne
      · have := single_le_sumA σ xs b hb' fun y hy => h0 y (List.mem_cons_of_mem a hy)
        omega
    · rcases List.mem_cons.mp hb with rfl | hb'
      · have := single_le_sumA σ xs a ha' fun y hy => h0 y (List.mem_cons_of_mem b hy)
        omega
      · have hx := h0 x (List.mem_cons_self x xs)
        have := ih ha' hb' fun y hy => h0 y (List.mem_cons_of_mem x hy)
        omega

/-- C4: the capacity compiler fixes `x[s, t, c, r] = 0` for all slots
and teachers exactly when the expected student count strictly exceeds
the room capacity; at equality nothing is emitted for the pair. -/
theorem room_capacity_strict_fixing
    (slots teachers courses rooms : List Nat)
    (course_by_id : Nat → Course) (room_by_id : Nat → Room)
    (s t c r : Nat) (hs : s ∈ slots) (ht : t ∈ teachers)
    (hc : c ∈ courses) (hr : r ∈ rooms) :
    (capacityFix c r s t ∈
        add_room_capacity_constr courses rooms course_by_id room_by_id slots teachers
      ↔ (room_by_id r).capacity < (course_by_id c).expected_num_students)
    ∧ ((course_by_id c).expected_num_students = (room_by_id r).capacity →
        capacityFix c r s t ∉
          add_room_capacity_constr courses rooms course_by_id room_by_id slots teachers) := by
  have key : capacityFix c r s t ∈
        add_room_capacity_constr courses rooms course_by_id room_by_id slots teachers
      ↔ (room_by_id r).capacity < (course_by_id c).expected_num_students := by
    constructor
    · intro hmem
      rcases List.mem_flatMap.mp hmem with ⟨c₂, hc₂, hm⟩
      rcases List.mem_flatMap.mp hm with ⟨r₂, hr₂, hm₂⟩
      by_cases hcond :
          (course_by_id c₂).expected_num_students > (room_by_id r₂).capacity
      · rw [if_pos hcond] at hm₂
        rcases List.mem_flatMap.mp hm₂ with ⟨s₂, hs₂, hm₃⟩
        rcases List.mem_map.mp hm₃ with ⟨t₂, ht₂, heq⟩
        have hl := congrArg Constr.lhs heq
        simp only [capacityFix] at hl
        rw [List.cons.injEq] at hl
        obtain ⟨hx, -⟩ := hl
        rw [Atom.x.injEq] at hx
        obtain ⟨rfl, rfl, rfl, rfl⟩ := hx
        exact hcond
      · rw [if_neg hcond] at hm₂
        cases hm₂
    · intro hcond
      refine List.mem_flatMap.mpr ⟨c, hc, List.mem_flatMap.mpr ⟨r, hr, ?_⟩⟩
      rw [if_pos hcond]
      exact List.mem_flatMap.mpr ⟨s, hs, List.mem_map.mpr ⟨t, ht, rfl⟩⟩
  refine ⟨key, fun heq hmem => ?_⟩
  have := key.mp hmem
  omega

/-- Witness for C4: on the example data, the fixing for the too small
room 2 is present and the fixing for the fitting room 0 is absent. -/
theorem room_capacity_strict_fixing_witness :
    (capacityFix 0 2 1 0 ∈
        add_room_capacity_constr [0] [2] exCourseById exRoomByIdMixed [1] [0])
    ∧ (capacityFix 0 0 1 0 ∉
        add_room_capacity_constr [0] [0] exCourseById exRoomByIdMixed [1] [0]) :=
  ⟨(room_capacity_strict_fixing [1] [0] [0] [2] exCourseById exRoomByIdMixed
      1 0 0 2 (by decide) (by decide) (by decide) (by decide)).1.mpr (by decide),
   fun hmem =>
    absurd ((room_capacity_strict_fixing [1] [0] [0] [0] exCourseById exRoomByIdMixed
      1 0 0 0 (by decide) (by decide) (by decide) (by decide)).1.mp hmem) (by decide)⟩

/-- C2: the room-type compiler fixes `x[s, t, c, r] = 0` exactly when
the room type is outside the seminar closure of the course allowed
types; a course allowing only LECTURE rejects the three other types and
a course allowing SEMINAR accepts every type, and without SEMINAR the
closure adds nothing. -/
theorem room_type_closure_fixing
    (slots teachers courses rooms : List Nat)
    (course_by_id : Nat → Course) (room_by_id : Nat → Room)
    (s t c r : Nat) (hs : s ∈ slots) (ht : t ∈ teachers)
    (hc : c ∈ courses) (hr : r ∈ rooms) :
    (roomTypeFix course_by_id s t c r ∈
        add_room_type_constraints slots teachers courses rooms course_by_id room_by_id
      ↔ (room_by_id r).type ∉ closureTypes (course_by_id c).facility_constr)
    ∧ (∀ ty : RoomType, ty ∈ closureTypes [RoomType.LECTURE] ↔ ty = RoomType.LECTURE)
    ∧ (∀ facility : List RoomType, RoomType.SEMINAR ∈ facility →
        ∀ ty : RoomType, ty ∈ closureTypes facility)
    ∧ (∀ facility : List RoomType, RoomType.SEMINAR ∉ facility →
        closureTypes facility = facility.toFinset) := by
  refine ⟨?_, by decide, ?_, ?_⟩
  · constructor
    · intro hmem
      rcases List.mem_flatMap.mp hmem with ⟨s₂, hs₂, hm⟩
      rcases List.mem_flatMap.mp hm with ⟨t₂, ht₂, hm₂⟩
      rcases List.mem_flatMap.mp hm₂ with ⟨c₂, hc₂, hm₃⟩
      rcases List.mem_filterMap.mp hm₃ with ⟨r₂, hr₂, heq⟩
      by_cases hcond :
          (room_by_id r₂).type ∈ closureTypes (course_by_id c₂).facility_constr
      · rw [if_pos hcond] at heq
        cases heq
      · rw [if_neg hcond] at heq
        rw [Option.some.injEq] at heq
        have hl := congrArg Constr.lhs heq
        simp only [roomTypeFix] at hl
        rw [List.cons.injEq] at hl
        obtain ⟨hx, -⟩ := hl
        rw [Atom.x.injEq] at hx
        obtain ⟨rfl, rfl, rfl, rfl⟩ := hx
        exact hcond
    · intro hcond
      refine List.mem_flatMap.mpr ⟨s, hs, List.mem_flatMap.mpr ⟨t, ht,
        List.mem_flatMap.mpr ⟨c, hc, List.mem_filterMap.mpr ⟨r, hr, ?_⟩⟩⟩⟩
      rw [if_neg hcond]
  · intro facility hsem ty
    unfold closureTypes
    rw [if_pos (List.mem_toFinset.mpr hsem)]
    refine Finset.mem_union_right _ ?_
    cases ty <;> decide
  · intro facility hsem
    unfold closureTypes
    rw [if_neg fun hm => hsem (List.mem_toFinset.mp hm)]

/-- Witness for C2: with the example data, the fixing for the lab room
1 is present for the lecture-only course 0 and the fixing for the
lecture room 0 is absent. -/
theorem room_type_closure_fixing_witness :
    (roomTypeFix exCourseById 1 0 0 1 ∈
        add_room_type_constraints [1] [0] [0] [1] exCourseById exRoomByIdMixed)
    ∧ (roomTypeFix exCourseById 1 0 0 0 ∉
        add_room_type_constraints [1] [0] [0] [0] exCourseById exRoomByIdMixed) :=
  ⟨(room_type_closure_fixing [1] [0] [0] [1] exCourseById exRoomByIdMixed
      1 0 0 1 (by decide) (by decide) (by decide) (by decide)).1.mpr (by decide),
   fun hmem =>
    absurd ((room_type_closure_fixing [1] [0] [0] [0] exCourseById exRoomByIdMixed
      1 0 0 0 (by decide) (by decide) (by decide) (by decide)).1.mp hmem) (by decide)⟩

/-- C10: a forbidding constraint for (course, teacher) is emitted
exactly when the course teacher_ids list is nonempty, resolves to at
least one listed teacher, and the teacher is outside the resolved
allowed set. -/
theorem course_teacher_compatibility_rules
    (slots teachers courses rooms : List Nat) (course_by_id : Nat → Course)
    (c t : Nat) (hc : c ∈ courses) (ht : t ∈ teachers) :
    compatForbid slots rooms c t ∈
        add_course_teacher_compatibility_constraint slots teachers courses rooms course_by_id
      ↔ ((course_by_id c).teacher_ids ≠ [] ∧
         (course_by_id c).teacher_ids.filter (fun x => decide (x ∈ teachers)) ≠ [] ∧
         t ∉ (course_by_id c).teacher_ids.filter (fun x => decide (x ∈ teachers))) := by
  constructor
  · intro hmem
    rcases List.mem_flatMap.mp hmem with ⟨c₂, hc₂, hm⟩
    simp only at hm
    by_cases h₁ : (course_by_id c₂).teacher_ids = []
    · rw [if_pos h₁] at hm
      cases hm
    · rw [if_neg h₁] at hm
      by_cases h₂ :
          (course_by_id c₂).teacher_ids.filter (fun x => decide (x ∈ teachers)) = []
      · rw [if_pos h₂] at hm
        cases hm
      · rw [if_neg h₂] at hm
        rcases List.mem_filterMap.mp hm with ⟨t₂, ht₂, heq⟩
        by_cases h₃ :
            t₂ ∈ (course_by_id c₂).teacher_ids.filter (fun x => decide (x ∈ teachers))
        · rw [if_pos h₃] at heq
          cases heq
        · rw [if_neg h₃] at heq
          rw [Option.some.injEq] at heq
          have hn := congrArg Constr.name heq
          simp only [compatForbid, compatName] at hn
          rw [List.cons.injEq] at hn
          obtain ⟨-, hn⟩ := hn
          rw [List.cons.injEq] at hn
          obtain ⟨hc₃, hn⟩ := hn
          rw [List.cons.injEq] at hn
          obtain ⟨-, hn⟩ := hn
          rw [List.cons.injEq] at hn
          obtain ⟨ht₃, -⟩ := hn
          rw [Tok.num.injEq] at hc₃ ht₃
          subst hc₃
          subst ht₃
          exact ⟨h₁, h₂, h₃⟩
  · rintro ⟨h₁, h₂, h₃⟩
    refine List.mem_flatMap.mpr ⟨c, hc, ?_⟩
    simp only
    rw [if_neg h₁, if_neg h₂]
    exact List.mem_filterMap.mpr ⟨t, ht, by rw [if_neg h₃]⟩

/-- Witness for C10: teacher 1 is forbidden for the example course
(which allows only teacher 0), while for a course with unresolvable
teacher_ids nothing is emitted. -/
theorem course_teacher_compatibility_rules_witness :
    (compatForbid [1] [0] 0 1 ∈
        add_course_teacher_compatibility_constraint [1] [0, 1] [0] [0] exCourseById)
    ∧ (compatForbid [1] [0] 0 1 ∉
        add_course_teacher_compatibility_constraint [1] [2, 1] [0] [0] exCourseById) :=
  ⟨(course_teacher_compatibility_rules [1] [0, 1] [0] [0] exCourseById 0 1
      (by decide) (by decide)).mpr (by decide),
   fun hmem => by
    have h := (course_teacher_compatibility_rules [1] [2, 1] [0] [0] exCourseById 0 1
      (by decide) (by decide)).mp hmem
    exact absurd h (by decide)⟩

/-- C6: the three-constraint AND-linearization forces the binary
auxiliary to equal one exactly when both binary inputs equal one. -/
theorem and_linearization_exact (σ : Atom → Int) (z a b : Atom)
    (hz : σ z = 0 ∨ σ z = 1) (ha : σ a = 0 ∨ σ a = 1) (hb : σ b = 0 ∨ σ b = 1)
    (hsat : ∀ ct ∈ andLink z a b, Constr.holds σ ct) :
    σ z = 1 ↔ (σ a = 1 ∧ σ b = 1) := by
  have h₁ := hsat ⟨[], [z], Cmp.le, [a], 0⟩ (by simp [andLink])
  have h₂ := hsat ⟨[], [z], Cmp.le, [b], 0⟩ (by simp [andLink])
  have h₃ := hsat ⟨[], [z], Cmp.ge, [a, b], -1⟩ (by simp [andLink])
  simp only [Constr.holds, sumA, List.map_cons, List.map_nil, List.sum_cons,
    List.sum_nil, ge_iff_le] at h₁ h₂ h₃
  constructor
  · intro h
    rcases ha with ha | ha <;> rcases hb with hb | hb <;> omega
  · rintro ⟨h₄, h₅⟩
    rcases hz with hz | hz <;> omega

/-- Witness for C6: with all variables at one the three constraints
hold and the equivalence is realized. -/
theorem and_linearization_exact_witness :
    exAllOnes (Atom.z [0]) = 1 ↔
      (exAllOnes (Atom.x 1 0 0 0) = 1 ∧ exAllOnes (Atom.u 0) = 1) :=
  and_linearization_exact exAllOnes (Atom.z [0]) (Atom.x 1 0 0 0) (Atom.u 0)
    (by norm_num [exAllOnes]) (by norm_num [exAllOnes]) (by norm_num [exAllOnes])
    (by decide)

/-- Counterexample to C1: on a two-slot instance with one course of
`times_per_week` 1 the assignment activating the course in both slots
satisfies every compiled hard constraint (coverage is only a lower
bound), yet it has 2 active quadruples, not `times_per_week` of them. -/
theorem coverage_times_per_week_counterexample :
    (∀ ct ∈ compileHardModel [1, 2] [0] [0] [0] ["S"]
        exTeacherById exCourseById exRoomById, Constr.holds exAssignTwice ct)
    ∧ Binary exAssignTwice
    ∧ (exCourseById 0).times_per_week = 1
    ∧ sumA exAssignTwice (courseVars [1, 2] [0] [0] 0) = 2
    ∧ ((2 : ℚ) ≠ (1 : ℚ)) := by
  refine ⟨by decide, ?_, by norm_num [exCourseById, exCourse], by decide, by norm_num⟩
  intro a
  by_cases h : a = Atom.x 1 0 0 0 ∨ a = Atom.x 2 0 0 0 <;> simp [exAssignTwice, h]

/-- C1 amended: the hard coverage constraints hold exactly when every
course has at least one active quadruple, and the soft coverage
constraints hold exactly when for every course the active quadruple
count plus the drop indicator equals one; neither form mentions
`times_per_week`. -/
theorem coverage_hard_ge_one_soft_eq_one
    (slots teachers courses rooms : List Nat) (σ : Atom → Int) :
    ((∀ ct ∈ add_all_courses_scheduled_constraint courses teachers rooms slots,
        Constr.holds σ ct)
      ↔ ∀ c ∈ courses, 1 ≤ sumA σ (courseVars slots teachers rooms c))
    ∧ ((∀ ct ∈ add_all_courses_scheduled_soft courses teachers rooms slots,
        Constr.holds σ ct)
      ↔ ∀ c ∈ courses, sumA σ (courseVars slots teachers rooms c) + σ (.u c) = 1) := by
  constructor
  · constructor
    · intro h c hc
      have := h _ (List.mem_map.mpr ⟨c, hc, rfl⟩)
      simpa [add_all_courses_scheduled_constraint, coverageConstr,
        Constr.holds, sumA_nil, ge_iff_le] using this
    · intro h ct hct
      rcases List.mem_map.mp hct with ⟨c, hc, rfl⟩
      simpa [coverageConstr, Constr.holds, sumA_nil, ge_iff_le] using h c hc
  · constructor
    · intro h c hc
      have := h _ (List.mem_map.mpr ⟨c, hc, rfl⟩)
      simpa [softCoverageConstr, Constr.holds, sumA_append, sumA_cons,
        sumA_nil] using this
    · intro h ct hct
      rcases List.mem_map.mp hct with ⟨c, hc, rfl⟩
      have := h c hc
      simp only [softCoverageConstr, Constr.holds, sumA_append, sumA_cons, sumA_nil]
      omega

/-- Witness for C1 amended: on a one-slot instance the single active
assignment meets the hard coverage bound. -/
theorem coverage_hard_ge_one_soft_eq_one_witness :
    1 ≤ sumA exAssignOnce (courseVars [1] [0] [0] 0) :=
  (coverage_hard_ge_one_soft_eq_one [1] [0] [0] [0] exAssignOnce).1.mp
    (by decide) 0 (by decide)

theorem sumA_dropAll_of_x (l : List Atom)
    (h : ∀ a ∈ l, ∃ s t c r, a = Atom.x s t c r) : sumA dropAll l = 0 :=
  sumA_zero _ _ fun a ha => by rcases h a ha with ⟨s, t, c, r, rfl⟩; rfl

theorem courseVars_dropAll (slots teachers rooms : List Nat) (c : Nat) :
    sumA dropAll (courseVars slots teachers rooms c) = 0 := by
  refine sumA_dropAll_of_x _ fun a ha => ?_
  rcases List.mem_flatMap.mp ha with ⟨s, -, h₂⟩
  rcases List.mem_flatMap.mp h₂ with ⟨t, -, h₃⟩
  rcases List.mem_map.mp h₃ with ⟨r, -, rfl⟩
  exact ⟨s, t, c, r, rfl⟩

/-- C5: every compiled soft model contains, for every course, the
constraint `sum x + u[c] == 1`; the objective gains
`penalty * sum u[c]`; and the binary all-dropped assignment satisfies
the whole compiled model with every drop indicator at one, so a course
without any feasible placement never makes the soft model infeasible. -/
theorem soft_coverage_drop_feasibility
    (slots teachers courses rooms : List Nat) (semesters : List String)
    (teacher_by_id : Nat → Teacher) (course_by_id : Nat → Course)
    (room_by_id : Nat → Room) (penalty : Int) :
    (∀ c ∈ courses,
        softCoverageConstr slots teachers rooms c ∈
          compileSoftModel slots teachers courses rooms semesters
            teacher_by_id course_by_id room_by_id)
    ∧ Binary dropAll
    ∧ (∀ ct ∈ compileSoftModel slots teachers courses rooms semesters
          teacher_by_id course_by_id room_by_id, Constr.holds dropAll ct)
    ∧ (∀ c ∈ courses, dropAll (.u c) = 1)
    ∧ dropPenaltyExpr penalty courses dropAll = penalty * courses.length := by
  refine ⟨?_, ?_, ?_, fun c _ => rfl, ?_⟩
  · intro c hc
    exact List.mem_append_right _ (List.mem_map.mpr ⟨c, hc, rfl⟩)
  · intro a
    cases a <;> simp [dropAll]
  · intro ct hct
    rw [compileSoftModel] at hct
    simp only [List.mem_append] at hct
    rcases hct with ((((((hct | hct) | hct) | hct) | hct) | hct) | hct) | hct
    · rcases List.mem_flatMap.mp hct with ⟨r, -, h₂⟩
      rcases List.mem_map.mp h₂ with ⟨s, -, rfl⟩
      have h0 : sumA dropAll
          (teachers.flatMap fun t => courses.map fun c => Atom.x s t c r) = 0 := by
        refine sumA_dropAll_of_x _ fun a ha => ?_
        rcases List.mem_flatMap.mp ha with ⟨t, -, h₃⟩
        rcases List.mem_map.mp h₃ with ⟨c, -, rfl⟩
        exact ⟨s, t, c, r, rfl⟩
      simp [roomExclConstr, Constr.holds, h0, sumA_nil]
    · rcases List.mem_flatMap.mp hct with ⟨t, -, h₂⟩
      rcases List.mem_map.mp h₂ with ⟨s, -, rfl⟩
      have h0 : sumA dropAll
          (courses.flatMap fun c => rooms.map fun r => Atom.x s t c r) = 0 := by
        refine sumA_dropAll_of_x _ fun a ha => ?_
        rcases List.mem_flatMap.mp ha with ⟨c, -, h₃⟩
        rcases List.mem_map.mp h₃ with ⟨r, -, rfl⟩
        exact ⟨s, t, c, r, rfl⟩
      simp [teacherExclConstr, Constr.holds, h0, sumA_nil]
    · rcases List.mem_flatMap.mp hct with ⟨sem, -, h₂⟩
      rcases List.mem_map.mp h₂ with ⟨s, -, rfl⟩
      have h0 : sumA dropAll
          ((courses.filter fun c => decide (sem ∈ (course_by_id c).semester)).flatMap
            fun c => teachers.flatMap fun t => rooms.map fun r => Atom.x s t c r) = 0 := by
        refine sumA_dropAll_of_x _ fun a ha => ?_
        rcases List.mem_flatMap.mp ha with ⟨c, -, h₃⟩
        rcases List.mem_flatMap.mp h₃ with ⟨t, -, h₄⟩
        rcases List.mem_map.mp h₄ with ⟨r, -, rfl⟩
        exact ⟨s, t, c, r, rfl⟩
      simp [semOverlapConstr, Constr.holds, h0, sumA_nil]
    · rcases List.mem_flatMap.mp hct with ⟨t, -, h₂⟩
      rcases List.mem_map.mp h₂ with ⟨s, -, rfl⟩
      have h0 : sumA dropAll
          (courses.flatMap fun c => rooms.map fun r => Atom.x s t c r) = 0 := by
        refine sumA_dropAll_of_x _ fun a ha => ?_
        rcases List.mem_flatMap.mp ha with ⟨c, -, h₃⟩
        rcases List.mem_map.mp h₃ with ⟨r, -, rfl⟩
        exact ⟨s, t, c, r, rfl⟩
      simp [Constr.holds, h0, sumA_nil]
    · rcases List.mem_flatMap.mp hct with ⟨c, -, h₂⟩
      rcases List.mem_flatMap.mp h₂ with ⟨r, -, h₃⟩
      by_cases hcond :
          (course_by_id c).expected_num_students > (room_by_id r).capacity
      · rw [if_pos hcond] at h₃
        rcases List.mem_flatMap.mp h₃ with ⟨s, -, h₄⟩
        rcases List.mem_map.mp h₄ with ⟨t, -, rfl⟩
        simp [capacityFix, Constr.holds, sumA_cons, sumA_nil, dropAll]
      · rw [if_neg hcond] at h₃
        cases h₃
    · rcases List.mem_flatMap.mp hct with ⟨s, -, h₂⟩
      rcases List.mem_flatMap.mp h₂ with ⟨t, -, h₃⟩
      rcases List.mem_flatMap.mp h₃ with ⟨c, -, h₄⟩
      rcases List.mem_filterMap.mp h₄ with ⟨r, -, heq⟩
      by_cases hcond :
          (room_by_id r).type ∈ closureTypes (course_by_id c).facility_constr
      · rw [if_pos hcond] at heq
        cases heq
      · rw [if_neg hcond, Option.some.injEq] at heq
        subst heq
        simp [roomTypeFix, Constr.holds, sumA_cons, sumA_nil, dropAll]
    · rcases List.mem_flatMap.mp hct with ⟨c, -, h₂⟩
      simp only at h₂
      by_cases h₃ : (course_by_id c).teacher_ids = []
      · rw [if_pos h₃] at h₂
        cases h₂
      · rw [if_neg h₃] at h₂
        by_cases h₄ :
            (course_by_id c).teacher_ids.filter (fun x => decide (x ∈ teachers)) = []
        · rw [if_pos h₄] at h₂
          cases h₂
        · rw [if_neg h₄] at h₂
          rcases List.mem_filterMap.mp h₂ with ⟨t, -, heq⟩
          by_cases h₅ :
              t ∈ (course_by_id c).teacher_ids.filter (fun x => decide (x ∈ teachers))
          · rw [if_pos h₅] at heq
            cases heq
          · rw [if_neg h₅, Option.some.injEq] at heq
            subst heq
            have h0 : sumA dropAll
                (slots.flatMap fun s => rooms.map fun r => Atom.x s t c r) = 0 := by
              refine sumA_dropAll_of_x _ fun a ha => ?_
              rcases List.mem_flatMap.mp ha with ⟨s, -, h₆⟩
              rcases List.mem_map.mp h₆ with ⟨r, -, rfl⟩
              exact ⟨s, t, c, r, rfl⟩
            simp [compatForbid, Constr.holds, h0, sumA_nil]
    · rcases List.mem_map.mp hct with ⟨c, -, rfl⟩
      simp [softCoverageConstr, Constr.holds, sumA_append, sumA_cons, sumA_nil,
        courseVars_dropAll, dropAll]
  · simp only [dropPenaltyExpr, dropAll]
    have h1 : (courses.map fun _ => (1 : Int)).sum = courses.length := by
      induction courses with
      | nil => simp
      | cons c cs ih =>
        simp only [List.map_cons, List.sum_cons, ih, List.length_cons]
        push_cast
        ring
    rw [h1]

/-- Witness for C5: on the one-course instance whose only allowed room
type has no room, the all-dropped assignment satisfies the soft
coverage constraint and drops course 0. -/
theorem soft_coverage_drop_feasibility_witness :
    Constr.holds dropAll (softCoverageConstr [1] [0] [1] 0) ∧ dropAll (Atom.u 0) = 1 :=
  ⟨(soft_coverage_drop_feasibility [1] [0] [0] [1] ["S"] exTeacherById exCourseById
      exRoomByIdMixed 1000000).2.2.1 _
      ((soft_coverage_drop_feasibility [1] [0] [0] [1] ["S"] exTeacherById exCourseById
        exRoomByIdMixed 1000000).1 0 (by decide)),
   (soft_coverage_drop_feasibility [1] [0] [0] [1] ["S"] exTeacherById exCourseById
      exRoomByIdMixed 1000000).2.2.2.1 0 (by decide)⟩

/-- C8: the compiler emits one at-most-one constraint per (room, slot)
and per (teacher, slot) pair, and under these constraints two active
quadruples of a binary assignment that share slot and room, or slot and
teacher, coincide. -/
theorem room_teacher_exclusivity_invariant
    (slots teachers courses rooms : List Nat) (σ : Atom → Int)
    (hbin : Binary σ)
    (hroom : ∀ ct ∈ add_single_room_single_course_constr slots teachers courses rooms,
      Constr.holds σ ct)
    (hteacher : ∀ ct ∈ add_single_teacher_single_course_constr slots teachers courses rooms,
      Constr.holds σ ct)
    (s₁ t₁ c₁ r₁ s₂ t₂ c₂ r₂ : Nat)
    (hs₁ : s₁ ∈ slots) (ht₁ : t₁ ∈ teachers) (hc₁ : c₁ ∈ courses) (hr₁ : r₁ ∈ rooms)
    (hs₂ : s₂ ∈ slots) (ht₂ : t₂ ∈ teachers) (hc₂ : c₂ ∈ courses) (hr₂ : r₂ ∈ rooms)
    (hx₁ : σ (.x s₁ t₁ c₁ r₁) = 1) (hx₂ : σ (.x s₂ t₂ c₂ r₂) = 1) :
    (∀ r ∈ rooms, ∀ s ∈ slots,
        roomExclConstr teachers courses r s ∈
          add_single_room_single_course_constr slots teachers courses rooms)
    ∧ (∀ t ∈ teachers, ∀ s ∈ slots,
        teacherExclConstr courses rooms t s ∈
          add_single_teacher_single_course_constr slots teachers courses rooms)
    ∧ (s₁ = s₂ → r₁ = r₂ → t₁ = t₂ ∧ c₁ = c₂)
    ∧ (s₁ = s₂ → t₁ = t₂ → c₁ = c₂ ∧ r₁ = r₂) := by
  refine ⟨?_, ?_, ?_, ?_⟩
  · intro r hr s hs
    exact List.mem_flatMap.mpr ⟨r, hr, List.mem_map.mpr ⟨s, hs, rfl⟩⟩
  · intro t ht s hs
    exact List.mem_flatMap.mpr ⟨t, ht, List.mem_map.mpr ⟨s, hs, rfl⟩⟩
  · rintro rfl rfl
    by_contra hne
    have hold := hroom (roomExclConstr teachers courses r₁ s₁)
      (List.mem_flatMap.mpr ⟨r₁, hr₁, List.mem_map.mpr ⟨s₁, hs₁, rfl⟩⟩)
    simp only [roomExclConstr, Constr.holds, sumA_nil] at hold
    have hmem₁ : Atom.x s₁ t₁ c₁ r₁ ∈
        teachers.flatMap fun t => courses.map fun c => Atom.x s₁ t c r₁ :=
      List.mem_flatMap.mpr ⟨t₁, ht₁, List.mem_map.mpr ⟨c₁, hc₁, rfl⟩⟩
    have hmem₂ : Atom.x s₁ t₂ c₂ r₁ ∈
        teachers.flatMap fun t => courses.map fun c => Atom.x s₁ t c r₁ :=
      List.mem_flatMap.mpr ⟨t₂, ht₂, List.mem_map.mpr ⟨c₂, hc₂, rfl⟩⟩
    have hne' : Atom.x s₁ t₁ c₁ r₁ ≠ Atom.x s₁ t₂ c₂ r₁ := by
      intro h
      rw [Atom.x.injEq] at h
      exact hne ⟨h.2.1, h.2.2.1⟩
    have hpair := pair_le_sumA σ _ _ _ hmem₁ hmem₂ hne' fun y _ => binary_nonneg hbin y
    rw [hx₁, hx₂] at hpair
    omega
  · rintro rfl rfl
    by_contra hne
    have hne₂ : ¬(c₁ = c₂ ∧ r₁ = r₂) := hne
    have hold := hteacher (teacherExclConstr courses rooms t₁ s₁)
      (List.mem_flatMap.mpr ⟨t₁, ht₁, List.mem_map.mpr ⟨s₁, hs₁, rfl⟩⟩)
    simp only [teacherExclConstr, Constr.holds, sumA_nil] at hold
    have hmem₁ : Atom.x s₁ t₁ c₁ r₁ ∈
        courses.flatMap fun c => rooms.map fun r => Atom.x s₁ t₁ c r :=
      List.mem_flatMap.mpr ⟨c₁, hc₁, List.mem_map.mpr ⟨r₁, hr₁, rfl⟩⟩
    have hmem₂ : Atom.x s₁ t₁ c₂ r₂ ∈
        courses.flatMap fun c => rooms.map fun r => Atom.x s₁ t₁ c r :=
      List.mem_flatMap.mpr ⟨c₂, hc₂, List.mem_map.mpr ⟨r₂, hr₂, rfl⟩⟩
    have hne' : Atom.x s₁ t₁ c₁ r₁ ≠ Atom.x s₁ t₁ c₂ r₂ := by
      intro h
      rw [Atom.x.injEq] at h
      exact hne₂ ⟨h.2.2.1, h.2.2.2⟩
    have hpair := pair_le_sumA σ _ _ _ hmem₁ hmem₂ hne' fun y _ => binary_nonneg hbin y
    rw [hx₁, hx₂] at hpair
    omega

/-- Witness for C8: on the one-of-everything instance with a single
active quadruple, the two exclusivity constraints are present and the
sharing conclusions are realized. -/
theorem room_teacher_exclusivity_invariant_witness :
    (roomExclConstr [0] [0] 0 1 ∈ add_single_room_single_course_constr [1] [0] [0] [0])
    ∧ ((0 : Nat) = 0 ∧ (0 : Nat) = 0) :=
  have h := room_teacher_exclusivity_invariant [1] [0] [0] [0] exAssignOnce
    (by intro a; by_cases h : a = Atom.x 1 0 0 0 <;> simp [exAssignOnce, h])
    (by decide) (by decide) 1 0 0 0 1 0 0 0
    (by decide) (by decide) (by decide) (by decide)
    (by decide) (by decide) (by decide) (by decide) (by decide) (by decide)
  ⟨h.1 0 (by decide) 1 (by decide), h.2.2.1 rfl rfl⟩

/-- C7: the compiler emits one at-most-one constraint per
(semester, slot) pair summed over the courses carrying the tag, and
under these constraints two active quadruples of a binary assignment in
the same slot whose courses share a listed semester tag coincide; in
particular two distinct courses sharing a tag are never scheduled in
the same slot. -/
theorem semester_non_overlap_invariant
    (slots teachers courses rooms : List Nat) (semesters : List String)
    (course_by_id : Nat → Course) (σ : Atom → Int)
    (hbin : Binary σ)
    (hsem : ∀ ct ∈ add_no_semester_overlapping_constr semesters course_by_id
      slots teachers courses rooms, Constr.holds σ ct)
    (sem : String) (slot t₁ c₁ r₁ t₂ c₂ r₂ : Nat)
    (hsm : sem ∈ semesters) (hsl : slot ∈ slots)
    (ht₁ : t₁ ∈ teachers) (hc₁ : c₁ ∈ courses) (hr₁ : r₁ ∈ rooms)
    (ht₂ : t₂ ∈ teachers) (hc₂ : c₂ ∈ courses) (hr₂ : r₂ ∈ rooms)
    (htag₁ : sem ∈ (course_by_id c₁).semester) (htag₂ : sem ∈ (course_by_id c₂).semester)
    (hx₁ : σ (.x slot t₁ c₁ r₁) = 1) (hx₂ : σ (.x slot t₂ c₂ r₂) = 1) :
    (semOverlapConstr teachers courses rooms course_by_id sem slot ∈
        add_no_semester_overlapping_constr semesters course_by_id slots teachers courses rooms)
    ∧ (t₁ = t₂ ∧ c₁ = c₂ ∧ r₁ = r₂) := by
  have hconstr : semOverlapConstr teachers courses rooms course_by_id sem slot ∈
      add_no_semester_overlapping_constr semesters course_by_id slots teachers courses rooms :=
    List.mem_flatMap.mpr ⟨sem, hsm, List.mem_map.mpr ⟨slot, hsl, rfl⟩⟩
  refine ⟨hconstr, ?_⟩
  by_contra hne
  have hold := hsem _ hconstr
  simp only [semOverlapConstr, Constr.holds, sumA_nil] at hold
  have hmem₁ : Atom.x slot t₁ c₁ r₁ ∈
      (courses.filter fun c => decide (sem ∈ (course_by_id c).semester)).flatMap
        fun c => teachers.flatMap fun t => rooms.map fun r => Atom.x slot t c r :=
    List.mem_flatMap.mpr ⟨c₁, List.mem_filter.mpr ⟨hc₁, by simpa using htag₁⟩,
      List.mem_flatMap.mpr ⟨t₁, ht₁, List.mem_map.mpr ⟨r₁, hr₁, rfl⟩⟩⟩
  have hmem₂ : Atom.x slot t₂ c₂ r₂ ∈
      (courses.filter fun c => decide (sem ∈ (course_by_id c).semester)).flatMap
        fun c => teachers.flatMap fun t => rooms.map fun r => Atom.x slot t c r :=
    List.mem_flatMap.mpr ⟨c₂, List.mem_filter.mpr ⟨hc₂, by simpa using htag₂⟩,
      List.mem_flatMap.mpr ⟨t₂, ht₂, List.mem_map.mpr ⟨r₂, hr₂, rfl⟩⟩⟩
  have hne' : Atom.x slot t₁ c₁ r₁ ≠ Atom.x slot t₂ c₂ r₂ := by
    intro h
    rw [Atom.x.injEq] at h
    exact hne ⟨h.2.1, h.2.2.1, h.2.2.2⟩
  have hpair := pair_le_sumA σ _ _ _ hmem₁ hmem₂ hne' fun y _ => binary_nonneg hbin y
  rw [hx₁, hx₂] at hpair
  omega

/-- Witness for C7: on the one-of-everything instance with a single
active quadruple carrying tag S, the semester constraint is present and
the coincidence conclusion is realized. -/
theorem semester_non_overlap_invariant_witness :
    (semOverlapConstr [0] [0] [0] exCourseById "S" 1 ∈
        add_no_semester_overlapping_constr ["S"] exCourseById [1] [0] [0] [0])
    ∧ ((0 : Nat) = 0 ∧ (0 : Nat) = 0 ∧ (0 : Nat) = 0) :=
  semester_non_overlap_invariant [1] [0] [0] [0] ["S"] exCourseById exAssignOnce
    (by intro a; by_cases h : a = Atom.x 1 0 0 0 <;> simp [exAssignOnce, h])
    (by decide) "S" 1 0 0 0 0 0 0
    (by decide) (by decide) (by decide) (by decide) (by decide)
    (by decide) (by decide) (by decide) (by decide) (by decide)
    (by decide) (by decide)

theorem step1_render (st : IISState) (g : GenName) :
    step1 st g.render = some (act1 st g) := by
  cases g <;>
    simp [GenName.render, act1, step1, roomExclName, teacherExclName,
      semOverlapName, teacherHardName, capacityName, roomTypeName, coverageName,
      tokStarts, tokMid, tokMidT, tokAnywhere, tokAnywhereT, tokPfx,
      patTeacherExcl, patSemPrefix, patMust, patCoverage, intOf, rsplitLast,
      lastTokAux, List.get?]

theorem tokAnywhereT_typeWords_false (p : Word) (tys : List RoomType) (l : List Tok)
    (hp : ∀ ty : RoomType, typeWord ty ≠ Tok.lit p)
    (hl : tokAnywhereT [Tok.lit p] l = false) :
    tokAnywhereT [Tok.lit p] (tys.map typeWord ++ l) = false := by
  induction tys with
  | nil => simpa
  | cons ty tys ih =>
    have hty := hp ty
    cases ty <;> simp only [typeWord, ne_eq, Tok.lit.injEq] at hty <;>
      simp [tokAnywhereT, tokStarts, typeWord, ih] <;>
      exact fun h => absurd h.symm hty

theorem step2_render (st : IISState) (g : GenName) :
    step2 st g.render = some (act1 st g) := by
  cases g with
  | roomType c tys s t r =>
    have hallowed : tokAnywhereT [Tok.lit Word.wAllowed]
        (tys.map typeWord ++
          [Tok.lit Word.wSlot, Tok.num s, Tok.lit Word.wTeacher, Tok.num t,
           Tok.lit Word.wRoom, Tok.num r]) = false := by
      refine tokAnywhereT_typeWords_false _ _ _ (fun ty => by cases ty <;> simp [typeWord]) ?_
      simp [tokAnywhereT, tokStarts]
    simp [GenName.render, act1, step2, roomTypeName,
      tokStarts, tokMid, tokMidT, tokAnywhere, tokAnywhereT, tokPfx,
      patTeacherExcl, patSemPrefix, patMust, patCoverage, intOf, rsplitLast,
      lastTokAux, List.get?, hallowed]
  | _ =>
    simp [GenName.render, act1, step2, roomExclName, teacherExclName,
      semOverlapName, teacherHardName, capacityName, coverageName,
      tokStarts, tokMid, tokMidT, tokAnywhere, tokAnywhereT, tokPfx,
      patTeacherExcl, patSemPrefix, patMust, patCoverage, intOf, rsplitLast,
      lastTokAux, List.get?]

theorem foldlM_step1_render (gs : List GenName) (st : IISState) :
    List.foldlM step1 st (gs.map GenName.render) = some (gs.foldl act1 st) := by
  induction gs generalizing st with
  | nil => rfl
  | cons g gs ih => simp [step1_render, ih]

theorem foldl_act1_teacher_slots (gs : List GenName) (st : IISState) (t : Nat) :
    (gs.foldl act1 st).teacher_slots t =
      (lastTeacherHardSlot gs t).elim (st.teacher_slots t) some := by
  induction gs generalizing st with
  | nil => simp [lastTeacherHardSlot]
  | cons g gs ih =>
    rw [List.foldl_cons, ih]
    cases g with
    | teacherHard t₂ slot =>
      cases hh : lastTeacherHardSlot gs t with
      | some s => simp [lastTeacherHardSlot, hh]
      | none =>
        simp only [lastTeacherHardSlot, hh, act1, Option.elim]
        by_cases ht : t₂ = t
        · subst ht
          simp
        · have ht' : ¬t = t₂ := fun h => ht h.symm
          simp [ht, ht']
    | roomExcl r s => simp [lastTeacherHardSlot, act1]
    | teacherExcl t₃ s => simp [lastTeacherHardSlot, act1]
    | semOverlap slot sem => simp [lastTeacherHardSlot, act1]
    | capacity c r => simp [lastTeacherHardSlot, act1]
    | roomType c tys s t₃ r => simp [lastTeacherHardSlot, act1]
    | coverage c => simp [lastTeacherHardSlot, act1]

theorem lastTeacherHardSlot_mem (gs : List GenName) (t s : Nat)
    (h : lastTeacherHardSlot gs t = some s) : GenName.teacherHard t s ∈ gs := by
  induction gs with
  | nil => cases h
  | cons g gs ih =>
    cases g with
    | teacherHard t₂ slot =>
      cases hh : lastTeacherHardSlot gs t with
      | some s₂ =>
        simp only [lastTeacherHardSlot, hh] at h
        obtain rfl := Option.some.inj h
        exact List.mem_cons_of_mem _ (ih hh)
      | none =>
        simp only [lastTeacherHardSlot, hh] at h
        by_cases ht : t₂ = t
        · rw [if_pos ht] at h
          obtain rfl := Option.some.inj h
          rw [ht]
          exact List.mem_cons_self _ _
        · rw [if_neg ht] at h
          cases h
    | roomExcl r s₃ =>
      exact List.mem_cons_of_mem _ (ih (by simpa [lastTeacherHardSlot] using h))
    | teacherExcl t₃ s₃ =>
      exact List.mem_cons_of_mem _ (ih (by simpa [lastTeacherHardSlot] using h))
    | semOverlap slot sem =>
      exact List.mem_cons_of_mem _ (ih (by simpa [lastTeacherHardSlot] using h))
    | capacity c r =>
      exact List.mem_cons_of_mem _ (ih (by simpa [lastTeacherHardSlot] using h))
    | roomType c tys s₃ t₃ r =>
      exact List.mem_cons_of_mem _ (ih (by simpa [lastTeacherHardSlot] using h))
    | coverage c =>
      exact List.mem_cons_of_mem _ (ih (by simpa [lastTeacherHardSlot] using h))

theorem lastTeacherHardSlot_isSome (gs : List GenName) (t s : Nat)
    (h : GenName.teacherHard t s ∈ gs) : (lastTeacherHardSlot gs t).isSome = true := by
  induction gs with
  | nil => cases h
  | cons g gs ih =>
    rcases List.mem_cons.mp h with heq | h₂
    · subst heq
      cases hh : lastTeacherHardSlot gs t with
      | some s₂ => simp [lastTeacherHardSlot, hh]
      | none => simp [lastTeacherHardSlot, hh]
    · have hsome := ih h₂
      cases g with
      | teacherHard t₂ slot =>
        cases hh : lastTeacherHardSlot gs t with
        | some s₂ => simp [lastTeacherHardSlot, hh]
        | none =>
          rw [hh] at hsome
          cases hsome
      | roomExcl r s₃ => simpa [lastTeacherHardSlot] using hsome
      | teacherExcl t₃ s₃ => simpa [lastTeacherHardSlot] using hsome
      | semOverlap slot sem => simpa [lastTeacherHardSlot] using hsome
      | capacity c r => simpa [lastTeacherHardSlot] using hsome
      | roomType c tys s₃ t₃ r => simpa [lastTeacherHardSlot] using hsome
      | coverage c => simpa [lastTeacherHardSlot] using hsome

/-- C9: every teacher-hard-unavailability constraint of the conflict
set makes the diagnoser report map the teacher id to a conflicting
forced-off slot of that teacher, and to the slot of the constraint
itself when that teacher has a single forced-off slot in the set; in
particular scenario B reports the teacher mapped to slot 1. -/
theorem iis_teacher_hard_slot_report (gs : List GenName) (t s : Nat)
    (hmem : GenName.teacherHard t s ∈ gs) :
    ∃ courses dict types,
      get_unschedulable_objects_from_iis_v1 (gs.map GenName.render) =
        some (courses, dict, types)
      ∧ (∃ s₂, dict t = some s₂ ∧ GenName.teacherHard t s₂ ∈ gs)
      ∧ ((∀ s₂, GenName.teacherHard t s₂ ∈ gs → s₂ = s) → dict t = some s) := by
  have hrun : runIIS step1 (gs.map GenName.render) = some (gs.foldl act1 initIIS) :=
    foldlM_step1_render gs initIIS
  have hdict := foldl_act1_teacher_slots gs initIIS t
  obtain ⟨s₂, hs₂⟩ := Option.isSome_iff_exists.mp (lastTeacherHardSlot_isSome gs t s hmem)
  refine ⟨(gs.foldl act1 initIIS).unschedulable_courses.dedup,
    (gs.foldl act1 initIIS).teacher_slots,
    (gs.foldl act1 initIIS).allowed_types, ?_, ⟨s₂, ?_, ?_⟩, ?_⟩
  · rw [get_unschedulable_objects_from_iis_v1, hrun]
    rfl
  · rw [hdict, hs₂]
    rfl
  · exact lastTeacherHardSlot_mem gs t s₂ hs₂
  · intro huniq
    have := huniq s₂ (lastTeacherHardSlot_mem gs t s₂ hs₂)
    rw [hdict, hs₂, this]
    rfl

/-- Witness for C9: in the scenario B conflict set (teacher 7 hard
unavailable at slot 1, course 3 uncoverable) the report maps teacher 7
to slot 1. -/
theorem iis_teacher_hard_slot_report_witness :
    ∃ courses dict types,
      get_unschedulable_objects_from_iis_v1 (c9ConflictSet.map GenName.render) =
        some (courses, dict, types)
      ∧ (∃ s₂, dict 7 = some s₂ ∧ GenName.teacherHard 7 s₂ ∈ c9ConflictSet)
      ∧ ((∀ s₂, GenName.teacherHard 7 s₂ ∈ c9ConflictSet → s₂ = 1) → dict 7 = some 1) :=
  iis_teacher_hard_slot_report c9ConflictSet 7 1 (by decide)

/-- C3 (failing input): a conflict set holding the coverage constraint
of course 5 and the room-type constraint telling that course 5 needs a
LECTURE room yields, in both diagnoser versions, a report whose
room-type list is empty (and course 5 only as a generically
unschedulable course), although the room-type constraint is present. -/
theorem iis_room_type_report_empty :
    GenName.roomType 5 [RoomType.LECTURE] 1 2 3 ∈ c3ConflictSet
    ∧ get_unschedulable_objects_from_iis_v1 (c3ConflictSet.map GenName.render) =
        some ([5], fun _ => none, [])
    ∧ get_unschedulable_objects_from_iis_v2 (c3ConflictSet.map GenName.render) =
        some ([5], fun _ => none, []) :=
  ⟨by decide, rfl, rfl⟩

end Timetable
